import Mathlib

/-!
Verification of the COWORK project-scheduling engine.

The embedding models the mutation handlers of the application component
(`checkForWarnings`, `handleDragTask`, `handleResizeTask`, `confirmDeleteTask`,
`handleCreateGroup`, `handleSaveTask`, `handleUngroupTask`,
`handleUpdateTaskInterval`, `handleReorderGroupTasks`) and the markdown note
importer (`parseSingleMdFile`, `parseMdFiles`).

Dates are modelled as integers counting days since the Unix epoch; every date
handled by the engine is midnight-aligned, so `date-fns.addDays` is integer
addition and `date-fns.differenceInDays` is integer subtraction.
JavaScript `undefined` for an optional field is `Option.none`; JavaScript
truthiness tests on those fields are modelled explicitly (`0` and the empty
string are falsy).
-/

namespace Cowork

/-- Model of `date-fns.addDays` on a midnight-aligned date: plain day addition. -/
def addDays (d delta : Int) : Int := d + delta

/-- Model of `date-fns.differenceInDays` between two midnight-aligned dates. -/
def differenceInDays (left right : Int) : Int := left - right

/-- Day-of-week test used by `date-fns.isWeekend`: day 0 (1970-01-01) is a
Thursday, so `(d + 4) % 7` is 0 on Sundays and 6 on Saturdays.  `Int.emod`
is non-negative for a positive modulus, matching the calendar. -/
def isWeekend (d : Int) : Bool := (d + 4) % 7 == 0 || (d + 4) % 7 == 6

/-- Number of non-weekend days in the half-open range `[a, a + n)`. -/
def bdCount (a : Int) (n : Nat) : Int :=
  ((List.range n).filter (fun i => !isWeekend (a + i))).length

/-- Model of `date-fns.differenceInBusinessDays left right`: counts the non-weekend
days in `[right, left)` when `right ≤ left`, and minus the count of
non-weekend days in `(left, right]` otherwise (the upstream loop walks the
right date towards the left one, skipping weekends). -/
def differenceInBusinessDays (left right : Int) : Int :=
  if right ≤ left then bdCount right (left - right).toNat
  else - bdCount (left + 1) (right - left).toNat

/-- Shape of `Task` from types.ts.  `id` is `Option Int` because the create path can
produce a task whose `id` is `undefined` (see `handleSaveTask`). -/
structure Task where
  id : Option Int
  name : String
  start : Int
  «end» : Int
  progress : Int
  predecessorId : Option Int
  groupId : Option String
  unitId : Option String
deriving DecidableEq, Repr

/-- Shape of `TaskGroup` from types.ts. -/
structure TaskGroup where
  id : String
  name : Option String
  taskIds : List Int
  color : String
deriving DecidableEq, Repr

/-- Shape of `ExecutingUnit` from types.ts. -/
structure ExecutingUnit where
  id : String
  name : String
  color : String
deriving DecidableEq, Repr

/-- Shape of `Warning` from types.ts (the message is a rendered string). -/
structure Warning where
  taskId : Option Int
  message : String
deriving DecidableEq, Repr

/-- Shape of `Project` from types.ts. -/
structure Project where
  id : String
  name : String
  startDate : Int
  endDate : Int
  tasks : List Task
  taskGroups : List TaskGroup
  executingUnits : List ExecutingUnit
deriving DecidableEq, Repr

/-- JavaScript truthiness of an optional string field (`undefined` and the
empty string are falsy). -/
def truthyStr : Option String → Option String
  | some s => if s = "" then none else some s
  | none => none

/-- JavaScript truthiness of an optional numeric field (`undefined` and `0`
are falsy). -/
def truthyInt : Option Int → Option Int
  | some n => if n = 0 then none else some n
  | none => none

/-- Membership test `ids.includes(task.id)` / `new Set(ids).has(task.id)` where `ids` holds
numbers: an `undefined` id never matches. -/
def idMem (t : Task) (ids : List Int) : Bool :=
  match t.id with
  | some i => ids.contains i
  | none => false

/-- The warning condition of `checkForWarnings` for one task: the task's
`predecessorId` is truthy, `tasks.find` resolves it, and the task starts
before the predecessor ends. -/
def warnOf (tasks : List Task) (t : Task) : Option Warning :=
  match truthyInt t.predecessorId with
  | none => none
  | some pid =>
    match tasks.find? (fun p => p.id == some pid) with
    | none => none
    | some p =>
      if t.start < p.«end» then
        some ⟨t.id, "\"" ++ t.name ++ "\" 的開始時間早於其前置作業 \"" ++ p.name ++ "\" 的結束時間。"⟩
      else none

/-- Model of `checkForWarnings` (App component): one pass over the task list pushing a
warning per violating task, in task order. -/
def checkForWarnings (tasks : List Task) : List Warning :=
  tasks.filterMap (warnOf tasks)

/-- Model of `handleDragTask` (App component).  Returns `none` when the code's updater
returns `null` (unknown task, zero delta, or dangling `groupId`): nothing is
written in that case.  Otherwise the replacement task list. -/
def handleDragTask (proj : Project) (taskId : Int) (newStartDate : Int) : Option (List Task) :=
  match proj.tasks.find? (fun t => t.id == some taskId) with
  | none => none
  | some taskToMove =>
    let deltaDays := differenceInDays newStartDate taskToMove.start
    if deltaDays = 0 then none
    else
      match truthyStr taskToMove.groupId with
      | some gid =>
        match proj.taskGroups.find? (fun g => g.id == gid) with
        | none => none
        | some group =>
          some (proj.tasks.map (fun task =>
            if idMem task group.taskIds then
              { task with start := addDays task.start deltaDays,
                          «end» := addDays task.«end» deltaDays }
            else task))
      | none =>
        some (proj.tasks.map (fun task =>
          if task.id == some taskId then
            { task with start := newStartDate,
                        «end» := addDays newStartDate (differenceInBusinessDays task.«end» task.start) }
          else task))

/-- Model of `handleResizeTask` (App component): sets the task's dates verbatim. -/
def handleResizeTask (proj : Project) (taskId : Int) (newStart newEnd : Int) : List Task :=
  proj.tasks.map (fun t =>
    if t.id == some taskId then { t with start := newStart, «end» := newEnd } else t)

/-- Model of `confirmDeleteTask` (App component).  `none` when the task id does not
resolve (the handler returns before updating).  Otherwise the replacement
`(tasks, taskGroups)` pair: the task is removed, dangling `predecessorId`
references are cleared, the id is removed from every group's member list,
groups falling to fewer than 2 members are dropped, and tasks belonging to a
dropped group have their `groupId` cleared (`t.groupId || ''` replaces an
absent `groupId` by the empty string before the membership test). -/
def confirmDeleteTask (proj : Project) (taskToDeleteId : Int) : Option (List Task × List TaskGroup) :=
  match proj.tasks.find? (fun t => t.id == some taskToDeleteId) with
  | none => none
  | some _ =>
    let remainingTasks := proj.tasks.filter (fun t => !(t.id == some taskToDeleteId))
    let newTasks := remainingTasks.map (fun t =>
      if t.predecessorId == some taskToDeleteId then { t with predecessorId := none } else t)
    let newGroups := (proj.taskGroups.map (fun g =>
        { g with taskIds := g.taskIds.filter (fun i => !(i == taskToDeleteId)) })).filter
      (fun g => 1 < g.taskIds.length)
    let dissolvedGroupIds := (proj.taskGroups.filter (fun g =>
        !(newGroups.any (fun ng => ng.id == g.id)))).map TaskGroup.id
    let finalTasks := newTasks.map (fun t =>
      if dissolvedGroupIds.contains (t.groupId.getD "") then { t with groupId := none } else t)
    some (finalTasks, newGroups)

/-- Colour palette of `handleCreateGroup`. -/
def groupColors : List String :=
  ["#f87171", "#fb923c", "#fbbf24", "#a3e635", "#4ade80",
   "#34d399", "#22d3ee", "#60a5fa", "#818cf8", "#c084fc"]

/-- Model of `handleCreateGroup` (App component).  The fresh time-based token
`group-${Date.now()}` is supplied as `newGroupId`.  `none` models both early
returns (fewer than two selected ids, or a selected task already carrying a
truthy `groupId`): no state is written. -/
def handleCreateGroup (proj : Project) (selectedTaskIds : List Int) (newGroupId : String) :
    Option (List Task × List TaskGroup) :=
  if selectedTaskIds.length < 2 then none
  else if selectedTaskIds.any (fun i =>
      match proj.tasks.find? (fun t => t.id == some i) with
      | some t => !((truthyStr t.groupId) == none)
      | none => false) then none
  else
    let randomColor := groupColors.getD (proj.taskGroups.length % groupColors.length) ""
    let newGroup : TaskGroup := ⟨newGroupId, none, selectedTaskIds, randomColor⟩
    some (proj.tasks.map (fun task =>
        if idMem task selectedTaskIds then { task with groupId := some newGroupId } else task),
      proj.taskGroups ++ [newGroup])

/-- How the `id` key arrives in the form data of `handleSaveTask`: the key can
be absent, present with value `undefined` (what `AddTaskModal` sends when
creating, via `taskToEdit?.id`), or present with a number. -/
inductive IdField where
  | absent
  | undef
  | given (i : Int)
deriving DecidableEq, Repr

/-- Form payload of `handleSaveTask` (`{ id?, name, start, end }`). -/
structure TaskFormData where
  idField : IdField
  name : String
  start : Int
  «end» : Int
deriving DecidableEq, Repr

/-- Model of `Math.max(...tasks.map(t => t.id))`: `none` models the `NaN` produced
when some id is `undefined` (and the `-Infinity` of an empty spread, which is
unreachable behind the caller's length guard). -/
def maxTaskId (tasks : List Task) : Option Int :=
  match tasks with
  | [] => none
  | t :: ts =>
    ts.foldl (fun acc u =>
      match acc, u.id with
      | some a, some b => some (max a b)
      | _, _ => none) t.id

/-- JavaScript truthiness of the `id` field of the form data (`absent`,
`undefined` and `0` are falsy). -/
def truthyIdField : IdField → Option Int
  | .given i => if i = 0 then none else some i
  | _ => none

/-- Model of `handleSaveTask` (App component).  Update branch merges the form fields
into the matching task.  Create branch allocates `max(ids) + 1` (1 on an
empty list) and builds `{ id: newId, progress: 0, ...taskData }` — because the
spread comes last, an `id` key present in the form data (even with value
`undefined`) overwrites the allocated id. -/
def handleSaveTask (proj : Project) (taskData : TaskFormData) : List Task :=
  match truthyIdField taskData.idField with
  | some i =>
    proj.tasks.map (fun t =>
      if t.id == some i then
        { t with id := some i, name := taskData.name,
                 start := taskData.start, «end» := taskData.«end» }
      else t)
  | none =>
    let newId : Option Int :=
      if proj.tasks.length > 0 then (maxTaskId proj.tasks).map (· + 1) else some 1
    let createdId : Option Int :=
      match taskData.idField with
      | .absent => newId
      | .undef => none
      | .given i => some i
    proj.tasks ++ [{ id := createdId, name := taskData.name, start := taskData.start,
                     «end» := taskData.«end», progress := 0,
                     predecessorId := none, groupId := none, unitId := none }]

/-- Model of `handleUngroupTask` (App component).  `none` when the task does not
resolve or its `groupId` is falsy.  Otherwise the replacement
`(tasks, taskGroups)`: the id is removed from the group's member list; if the
group then has fewer than 2 members it is dissolved and every task still
tagged with it is cleared, else only the ungrouped task is cleared. -/
def handleUngroupTask (proj : Project) (taskIdToUngroup : Int) :
    Option (List Task × List TaskGroup) :=
  match proj.tasks.find? (fun t => t.id == some taskIdToUngroup) with
  | none => none
  | some task =>
    match truthyStr task.groupId with
    | none => none
    | some groupId =>
      let updatedGroups := proj.taskGroups.map (fun g =>
        if g.id == groupId then
          { g with taskIds := g.taskIds.filter (fun i => !(i == taskIdToUngroup)) }
        else g)
      let shouldDissolve :=
        match updatedGroups.find? (fun g => g.id == groupId) with
        | some g => g.taskIds.length < 2
        | none => false
      let finalGroups :=
        if shouldDissolve then updatedGroups.filter (fun g => !(g.id == groupId))
        else updatedGroups
      let finalTasks := proj.tasks.map (fun t =>
        if t.id == some taskIdToUngroup || (shouldDissolve && t.groupId == some groupId) then
          { t with groupId := none }
        else t)
      some (finalTasks, finalGroups)

/-- Stable insertion of a task into a list already sorted by ascending start
date.  Equal starts keep their original relative order, matching the stable
`Array.prototype.sort` with comparator `(a, b) => a.start - b.start`. -/
def insertByStart (t : Task) : List Task → List Task
  | [] => [t]
  | u :: us => if t.start ≤ u.start then t :: u :: us else u :: insertByStart t us

/-- Stable sort by ascending start date (insertion sort), modelling
`sort((a, b) => a.start.getTime() - b.start.getTime())`. -/
def sortByStart : List Task → List Task
  | [] => []
  | t :: ts => insertByStart t (sortByStart ts)

/-- The group's members resolved against the task list, dangling ids dropped
(`map(find!).filter(Boolean)`), sorted chronologically by current start. -/
def sortedGroupTasks (proj : Project) (group : TaskGroup) : List Task :=
  sortByStart (group.taskIds.filterMap (fun i => proj.tasks.find? (fun t => t.id == some i)))

/-- Model of `Array.prototype.slice(begin)` for a possibly negative `begin`: a negative
index counts from the end, clamped at 0. -/
def jsSliceFrom (l : List α) (i : Int) : List α :=
  if i < 0 then l.drop ((l.length + i).toNat) else l.drop i.toNat

/-- Model of `handleUpdateTaskInterval` (App component).  `none` models every `null`
return of the updater (unresolved previous/shift task, zero delta, unknown
group); otherwise the replacement task list, where the members of the group
sorted chronologically from the shifted task's position onwards are moved by
the delta (`slice(startIndex)` with `findIndex` returning `-1` slices the last
element only). -/
def handleUpdateTaskInterval (proj : Project) (groupId : String)
    (previousTaskId taskToShiftId : Int) (newInterval : Int) : Option (List Task) :=
  match proj.tasks.find? (fun t => t.id == some previousTaskId) with
  | none => none
  | some prevTask =>
    match proj.tasks.find? (fun t => t.id == some taskToShiftId) with
    | none => none
    | some taskToShift =>
      let newStartDate := addDays prevTask.«end» newInterval
      let delta := differenceInDays newStartDate taskToShift.start
      if delta = 0 then none
      else
        match proj.taskGroups.find? (fun g => g.id == groupId) with
        | none => none
        | some group =>
          let groupTasks := sortedGroupTasks proj group
          let startIndex : Int :=
            match groupTasks.findIdx? (fun t => t.id == some taskToShiftId) with
            | some n => (n : Int)
            | none => -1
          let idsToShift := (jsSliceFrom groupTasks startIndex).map Task.id
          some (proj.tasks.map (fun t =>
            if idsToShift.contains t.id then
              { t with start := addDays t.start delta, «end» := addDays t.«end» delta }
            else t))

/-- Model of `handleUpdateGroup` (App component): field merge into the matching
group(s). -/
def handleUpdateGroup (proj : Project) (groupId : String) (newTaskIds : List Int) : Project :=
  { proj with taskGroups := proj.taskGroups.map (fun g =>
      if g.id == groupId then { g with taskIds := newTaskIds } else g) }

/-- Resolution `newOrderedTaskIds.map(id => tasks.find(t => t.id === id)!)` paired with
the looked-up id; `none` when some id dangles (the subsequent property access
on `undefined` throws, aborting the second update). -/
def resolveOrdered (tasks : List Task) (order : List Int) : Option (List (Int × Task)) :=
  order.mapM (fun i => (tasks.find? (fun t => t.id == some i)).map (fun t => (i, t)))

/-- Tail of the relayout loop of `handleReorderGroupTasks`: each member starts
one day after the previous member's new end, preserving its own calendar-day
duration. -/
def reorderUpdatesGo (lastEnd : Int) : List (Int × Task) → List (Int × Int × Int)
  | [] => []
  | (i, t) :: rest =>
    let newStart := addDays lastEnd 1
    let newEnd := addDays newStart (differenceInDays t.«end» t.start)
    (i, newStart, newEnd) :: reorderUpdatesGo newEnd rest

/-- The `taskUpdates` map built by `handleReorderGroupTasks`: the first member
keeps its dates and receives no entry, each later member is relaid by
`reorderUpdatesGo`. -/
def reorderUpdates : List (Int × Task) → List (Int × Int × Int)
  | [] => []
  | (_, t0) :: rest => reorderUpdatesGo t0.«end» rest

/-- Lookup modelling `Map.get` with last-set-wins semantics on the association list. -/
def mapGet (l : List (Int × Int × Int)) (k : Int) : Option (Int × Int) :=
  (l.reverse.lookup k).map (fun p => p)

/-- Model of `handleReorderGroupTasks` (App component), as its net effect on the
active project's state.  The handler first persists the new order through
`handleUpdateGroup`, then runs a second update whose closure still holds the
pre-reorder `currentProject`; the second update builds
`{ ...currentProject, ...partialUpdate }` from that stale snapshot and
replaces the stored project with it.  Consequently: when the relayout throws
(dangling id) only the first update survives; when the relayout produces no
update (`{}`) or a task update, the stale spread reinstates the original
`taskGroups`. -/
def handleReorderGroupTasks (proj : Project) (groupId : String) (newOrderedTaskIds : List Int) :
    Project :=
  let projAfterGroupUpdate := handleUpdateGroup proj groupId newOrderedTaskIds
  match resolveOrdered proj.tasks newOrderedTaskIds with
  | none => projAfterGroupUpdate
  | some groupTasks =>
    let taskUpdates := reorderUpdates groupTasks
    if taskUpdates.isEmpty then proj
    else
      { proj with tasks := proj.tasks.map (fun t =>
          match t.id with
          | some i =>
            match mapGet taskUpdates i with
            | some (s, e) => { t with start := s, «end» := e }
            | none => t
          | none => t) }

/-- An input file of the markdown importer: its name and full text. -/
structure MdFile where
  name : String
  content : String
deriving DecidableEq, Repr

/-- The task skeleton produced by `parseSingleMdFile` (no id, predecessor or
group yet).  The dates are `Option Int`: `none` models a JavaScript
`Invalid Date` (`NaN` timestamp) arising from an out-of-range header date. -/
structure ParsedTaskData where
  name : String
  start : Option Int
  «end» : Option Int
  progress : Int
deriving DecidableEq, Repr

/-- String prefix test on character lists. -/
def leadsWith : List Char → List Char → Bool
  | [], _ => true
  | _ :: _, [] => false
  | p :: ps, c :: cs => p == c && leadsWith ps cs

/-- One step of `String.prototype.split(sep)` with a fixed non-empty
separator: scans left to right, splitting at each non-overlapping match.
`fuel` bounds the recursion by the input length. -/
def splitSepAux (sep : List Char) : Nat → List Char → List Char → List (List Char)
  | 0, _, acc => [acc.reverse]
  | fuel + 1, cs, acc =>
    if leadsWith sep cs then
      acc.reverse :: splitSepAux sep fuel (cs.drop sep.length) []
    else
      match cs with
      | [] => [acc.reverse]
      | c :: rest => splitSepAux sep fuel rest (c :: acc)

/-- Split `content.split('---')` as character lists. -/
def jsSplit (s : String) (sep : String) : List (List Char) :=
  splitSepAux sep.data (s.data.length + 1) s.data []

/-- ASCII whitespace as matched by the regex class `\s` (the importer's
headers only contain ASCII). -/
def isWsChar (c : Char) : Bool :=
  c == ' ' || c == '\t' || c == '\n' || c == '\r' || c == '\x0b' || c == '\x0c'

/-- Decimal value of a digit run. -/
def digitsToNat (acc : Nat) : List Char → Nat
  | [] => acc
  | c :: cs => if c.isDigit then digitsToNat (acc * 10 + (c.toNat - 48)) cs else acc

/-- Attempt to match `\s*(\d{4}-\d{2}-\d{2})` at the head of the input,
returning the captured year, month and day. -/
def matchDateAfter (cs : List Char) : Option (Int × Int × Int) :=
  match cs.dropWhile isWsChar with
  | y1 :: y2 :: y3 :: y4 :: '-' :: m1 :: m2 :: '-' :: d1 :: d2 :: _ =>
    if y1.isDigit && y2.isDigit && y3.isDigit && y4.isDigit &&
       m1.isDigit && m2.isDigit && d1.isDigit && d2.isDigit then
      some ((digitsToNat 0 [y1, y2, y3, y4] : Int),
            (digitsToNat 0 [m1, m2] : Int),
            (digitsToNat 0 [d1, d2] : Int))
    else none
  | _ => none

/-- First match of `/scheduled:\s*(\d{4}-\d{2}-\d{2})/` in the input: the
engine tries each start position left to right. -/
def scanScheduled : List Char → Option (Int × Int × Int)
  | [] => none
  | c :: rest =>
    if leadsWith "scheduled:".data (c :: rest) then
      match matchDateAfter ((c :: rest).drop "scheduled:".data.length) with
      | some r => some r
      | none => scanScheduled rest
    else scanScheduled rest

/-- Greedy digit run for `(\d+)`: at least one digit, then `parseInt`. -/
def matchNatAfter (cs : List Char) : Option Nat :=
  match cs.dropWhile isWsChar with
  | c :: rest =>
    if c.isDigit then some (digitsToNat 0 (c :: rest.takeWhile Char.isDigit))
    else none
  | [] => none

/-- First match of `/timeEstimate:\s*(\d+)/` in the input. -/
def scanTimeEstimate : List Char → Option Nat
  | [] => none
  | c :: rest =>
    if leadsWith "timeEstimate:".data (c :: rest) then
      match matchNatAfter ((c :: rest).drop "timeEstimate:".data.length) with
      | some r => some r
      | none => scanTimeEstimate rest
    else scanTimeEstimate rest

/-- Length of the month in the proleptic Gregorian calendar. -/
def daysInMonth (y m : Int) : Int :=
  if m = 2 then
    if y % 4 = 0 && (y % 100 ≠ 0 || y % 400 = 0) then 29 else 28
  else if m = 4 || m = 6 || m = 9 || m = 11 then 30
  else 31

/-- Validity of a civil date as accepted by the ISO parser of `new Date`. -/
def isValidCivil (y m d : Int) : Bool :=
  1 ≤ m && m ≤ 12 && 1 ≤ d && d ≤ daysInMonth y m

/-- Days since 1970-01-01 of a civil date (standard era/year-of-era
formulation; all divisions stay non-negative for the four-digit years the
header regex can produce). -/
def daysFromCivil (y m d : Int) : Int :=
  let y' := if m ≤ 2 then y - 1 else y
  let era : Int := (if 0 ≤ y' then y' else y' - 399) / 400
  let yoe := y' - era * 400
  let mp := (m + 9) % 12
  let doy := (153 * mp + 2) / 5 + d - 1
  let doe := yoe * 365 + yoe / 4 - yoe / 100 + doy
  era * 146097 + doe - 719468

/-- Model of `new Date('YYYY-MM-DDT00:00:00')` followed by `setHours(0,0,0,0)`:
the local-midnight day number, `none` for an out-of-range (Invalid) date. -/
def jsLocalDate (y m d : Int) : Option Int :=
  if isValidCivil y m d then some (daysFromCivil y m d) else none

/-- Suffix `\.(md|markdown|txt)$` removal (case-insensitive) from the file name. -/
def stripMdExt (cs : List Char) : List Char :=
  let lower := cs.map Char.toLower
  if leadsWith ".md".data.reverse lower.reverse then cs.take (cs.length - 3)
  else if leadsWith ".markdown".data.reverse lower.reverse then cs.take (cs.length - 9)
  else if leadsWith ".txt".data.reverse lower.reverse then cs.take (cs.length - 4)
  else cs

/-- Model of `String.prototype.trim()` (ASCII whitespace). -/
def trimWs (cs : List Char) : List Char :=
  ((cs.dropWhile isWsChar).reverse.dropWhile isWsChar).reverse

/-- Model of `parseSingleMdFile` (services/mdParser.ts).  `today` is the current local
day (`new Date()` truncated to midnight).  `none` models the skip paths: a
content with fewer than three `---`-separated parts, or an empty task name
after stripping the extension from the file name.  Otherwise the produced
task skeleton: start from the `scheduled:` header (falling back to `today`),
duration `max(1, ceil(timeEstimate / 86400))` days, end
`start + duration - 1`, progress 0. -/
def parseSingleMdFile (today : Int) (file : MdFile) : Option ParsedTaskData :=
  let parts := jsSplit file.content "---"
  if parts.length < 3 then none
  else
    let frontmatter := parts.getD 1 []
    let name := String.mk (trimWs (stripMdExt file.name.data))
    if name = "" then none
    else
      let startDate : Option Int :=
        match scanScheduled frontmatter with
        | some (y, m, d) => jsLocalDate y m d
        | none => some today
      let timeEstimateInSeconds : Nat := (scanTimeEstimate frontmatter).getD 0
      let durationInDays : Nat := max 1 ((timeEstimateInSeconds + 86399) / 86400)
      some { name := name,
             start := startDate,
             «end» := startDate.map (fun s => addDays s ((durationInDays : Int) - 1)),
             progress := 0 }

/-- Model of `parseMdFiles` (services/mdParser.ts): every file is parsed, failures are
filtered out, successes keep their order. -/
def parseMdFiles (today : Int) (files : List MdFile) : List ParsedTaskData :=
  files.filterMap (parseSingleMdFile today)

/-! ### Shared helper lemmas -/

theorem countP_filterMap_eq (f : α → Option β) (p : β → Bool) (l : List α) :
    (l.filterMap f).countP p = l.countP (fun a => ((f a).map p).getD false) := by
  induction l with
  | nil => rfl
  | cons a l ih =>
    cases h : f a <;> simp [List.filterMap_cons, h, List.countP_cons, ih]

theorem nodup_id_unique {tasks : List Task} {a t : Task}
    (hN : (tasks.map Task.id).Nodup) (ha : a ∈ tasks) (ht : t ∈ tasks)
    (h : a.id = t.id) : a = t :=
  List.inj_on_of_nodup_map hN ha ht h

theorem countP_id_and (tasks : List Task) (t : Task) (q : Task → Bool)
    (hN : (tasks.map Task.id).Nodup) (ht : t ∈ tasks) :
    tasks.countP (fun u => u.id == t.id && q u) = if q t then 1 else 0 := by
  induction tasks with
  | nil => cases ht
  | cons a l ih =>
    have hna : a.id ∉ l.map Task.id := (List.nodup_cons.mp hN).1
    have hN' : (l.map Task.id).Nodup := (List.nodup_cons.mp hN).2
    rcases List.mem_cons.mp ht with rfl | hmem
    · rw [List.countP_cons]
      have h0 : l.countP (fun u => u.id == t.id && q u) = 0 := by
        rw [List.countP_eq_zero]
        intro u hu hq
        simp only [Bool.and_eq_true, beq_iff_eq] at hq
        exact hna (hq.1 ▸ List.mem_map_of_mem Task.id hu)
      simp [h0]
    · rw [List.countP_cons]
      have hfalse : ¬ ((a.id == t.id && q a) = true) := by
        intro hq
        simp only [Bool.and_eq_true, beq_iff_eq] at hq
        exact hna (hq.1 ▸ List.mem_map_of_mem Task.id hmem)
      simp [hfalse, ih hN' hmem]

theorem truthyInt_eq_some {x : Option Int} {n : Int} (h : truthyInt x = some n) :
    x = some n ∧ n ≠ 0 := by
  cases x with
  | none => simp [truthyInt] at h
  | some m =>
    by_cases hm : m = 0
    · simp [truthyInt, hm] at h
    · simp [truthyInt, hm] at h
      exact ⟨by rw [h], h ▸ hm⟩

theorem warnOf_taskId (tasks : List Task) (u : Task) (w : Warning)
    (h : warnOf tasks u = some w) : w.taskId = u.id := by
  cases h1 : truthyInt u.predecessorId with
  | none => simp [warnOf, h1] at h
  | some pid =>
    cases h2 : tasks.find? (fun p => p.id == some pid) with
    | none => simp [warnOf, h1, h2] at h
    | some p =>
      by_cases hlt : u.start < p.«end»
      · simp [warnOf, h1, h2, hlt] at h
        rw [← h]
      · simp [warnOf, h1, h2, hlt] at h

/-! ### C1: warning detection -/

/-- Tasks refuting C1 as stated: task 1's `predecessorId` is `0`, which
resolves to task 0 (a different task) with `1.start < 0.end`, yet the
detector's truthiness test `if (task.predecessorId)` skips it. -/
def cex1Tasks : List Task :=
  [⟨some 1, "A", 0, 5, 0, some 0, none, none⟩,
   ⟨some 0, "B", 0, 5, 0, none, none, none⟩]

/-- C1 counterexample: a task whose `predecessorId` resolves to another task
in the list and starts before that predecessor's end, yet `checkForWarnings`
emits no warning for it — the claim's "exactly one warning" fails because the
code tests JavaScript truthiness of `predecessorId`, and `0` is falsy. -/
theorem claim1_counterexample :
    ∃ t ∈ cex1Tasks, ∃ pid, t.predecessorId = some pid ∧
      (∃ p ∈ cex1Tasks, p ≠ t ∧ p.id = some pid ∧ t.start < p.«end») ∧
      (checkForWarnings cex1Tasks).countP (fun w => w.taskId == t.id) = 0 := by
  refine ⟨⟨some 1, "A", 0, 5, 0, some 0, none, none⟩, by decide, 0, rfl, ⟨⟨some 0, "B", 0, 5, 0, none, none, none⟩, by decide, by decide, rfl, by decide⟩, by decide⟩

/-- C1 (amended): in a task list with pairwise-distinct ids, a task whose
`predecessorId` is non-zero and resolves to a task of the list produces
exactly one warning iff `task.start < predecessor.end`; a task without such a
resolvable non-zero predecessor (or with `start ≥ predecessor.end`) produces
no warning.  The detector is a pure projection of the task list. -/
theorem claim1_warning_detection (tasks : List Task) (t : Task)
    (ht : t ∈ tasks) (hN : (tasks.map Task.id).Nodup) :
    ((∃ pid, t.predecessorId = some pid ∧ pid ≠ 0 ∧
        ∃ p ∈ tasks, p.id = some pid ∧ t.start < p.«end») →
      (checkForWarnings tasks).countP (fun w => w.taskId == t.id) = 1) ∧
    ((¬ ∃ pid, t.predecessorId = some pid ∧ pid ≠ 0 ∧
        ∃ p ∈ tasks, p.id = some pid ∧ t.start < p.«end») →
      (checkForWarnings tasks).countP (fun w => w.taskId == t.id) = 0) := by
  have key : (checkForWarnings tasks).countP (fun w => w.taskId == t.id)
      = if (warnOf tasks t).isSome then 1 else 0 := by
    unfold checkForWarnings
    rw [countP_filterMap_eq]
    have hc : tasks.countP
          (fun a => ((warnOf tasks a).map (fun w => w.taskId == t.id)).getD false)
        = tasks.countP (fun u => u.id == t.id && (warnOf tasks u).isSome) := by
      apply List.countP_congr
      intro u _
      cases h : warnOf tasks u with
      | none => simp [h]
      | some w => simp [h, warnOf_taskId tasks u w h]
    rw [hc, countP_id_and tasks t _ hN ht]
  constructor
  · rintro ⟨pid, hp, hp0, p, hpmem, hpid, hlt⟩
    rw [key]
    have hs : (warnOf tasks t).isSome := by
      have h1 : truthyInt t.predecessorId = some pid := by simp [truthyInt, hp, hp0]
      have hex : (tasks.find? (fun x => x.id == some pid)).isSome :=
        List.find?_isSome.mpr ⟨p, hpmem, by simp [hpid]⟩
      cases hf : tasks.find? (fun x => x.id == some pid) with
      | none => rw [hf] at hex; cases hex
      | some p' =>
        have hp'mem : p' ∈ tasks := List.mem_of_find?_eq_some hf
        have hid' : p'.id = some pid := by simpa using List.find?_some hf
        have hpp : p' = p := nodup_id_unique hN hp'mem hpmem (by rw [hid', hpid])
        subst hpp
        simp [warnOf, h1, hf, hlt]
    simp [hs]
  · intro hnot
    rw [key]
    cases h : warnOf tasks t with
    | none => simp
    | some w =>
      exfalso
      apply hnot
      cases h1 : truthyInt t.predecessorId with
      | none => simp [warnOf, h1] at h
      | some pid =>
        obtain ⟨hpred, hpid0⟩ := truthyInt_eq_some h1
        cases hf : tasks.find? (fun x => x.id == some pid) with
        | none => simp [warnOf, h1, hf] at h
        | some p =>
          by_cases hlt : t.start < p.«end»
          · exact ⟨pid, hpred, hpid0, p, List.mem_of_find?_eq_some hf,
              by simpa using List.find?_some hf, hlt⟩
          · simp [warnOf, h1, hf, hlt] at h

/-- Witness for C1's theorem at a concrete list: the sample's task 2 starts
before its predecessor 1 ends and gets exactly one warning. -/
theorem claim1_witness :
    (⟨some 2, "B", 2, 7, 85, some 1, none, none⟩ : Task) ∈
        [⟨some 1, "A", 0, 4, 100, none, none, none⟩,
         (⟨some 2, "B", 2, 7, 85, some 1, none, none⟩ : Task)] ∧
    (checkForWarnings
        [⟨some 1, "A", 0, 4, 100, none, none, none⟩,
         ⟨some 2, "B", 2, 7, 85, some 1, none, none⟩]).countP
      (fun w => w.taskId == some 2) = 1 :=
  ⟨by decide,
    (claim1_warning_detection
        [⟨some 1, "A", 0, 4, 100, none, none, none⟩,
         ⟨some 2, "B", 2, 7, 85, some 1, none, none⟩]
        ⟨some 2, "B", 2, 7, 85, some 1, none, none⟩
        (by decide) (by decide)).1
      ⟨1, rfl, by decide,
        ⟨some 1, "A", 0, 4, 100, none, none, none⟩, by decide, rfl, by decide⟩⟩

/-! ### Sample data reused by several witnesses -/

/-- Grouped task 1 of the sample project. -/
def wTask1 : Task := ⟨some 1, "a", 0, 2, 0, none, some "G", none⟩

/-- Grouped task 2 of the sample project. -/
def wTask2 : Task := ⟨some 2, "b", 10, 13, 0, none, some "G", none⟩

/-- Ungrouped task 3 of the sample project, with task 1 as predecessor. -/
def wTask3 : Task := ⟨some 3, "c", 20, 21, 0, some 1, none, none⟩

/-- The sample group holding tasks 1 and 2. -/
def wGroup : TaskGroup := ⟨"G", none, [1, 2], "#f87171"⟩

/-- The sample project. -/
def wProj : Project := ⟨"p1", "P", 0, 60, [wTask1, wTask2, wTask3], [wGroup], []⟩

/-! ### C2: group rigidity on drag, C6: ungrouped drag -/

/-- C2: dragging a task of a group to a new start Δ days away shifts start and
end of every member of that group by exactly Δ (durations preserved, the
group a rigid block) and leaves every non-member unchanged; a zero-delta drag
returns no update. -/
theorem claim2_group_drag_rigid (proj : Project) (taskId newStart : Int)
    (t : Task) (gid : String) (g : TaskGroup)
    (hFind : proj.tasks.find? (fun u => u.id == some taskId) = some t)
    (hGid : t.groupId = some gid) (hne : gid ≠ "")
    (hGroup : proj.taskGroups.find? (fun g' => g'.id == gid) = some g) :
    (newStart = t.start → handleDragTask proj taskId newStart = none) ∧
    (newStart ≠ t.start →
      ∃ out, handleDragTask proj taskId newStart = some out ∧
        out.length = proj.tasks.length ∧
        ∀ i, (hi : i < proj.tasks.length) →
          (idMem proj.tasks[i] g.taskIds = true →
            out[i]? = some { proj.tasks[i] with
              start := proj.tasks[i].start + (newStart - t.start),
              «end» := proj.tasks[i].«end» + (newStart - t.start) }) ∧
          (idMem proj.tasks[i] g.taskIds = false → out[i]? = some proj.tasks[i])) := by
  have hTruthy : truthyStr t.groupId = some gid := by simp [truthyStr, hGid, hne]
  constructor
  · intro h0
    simp [handleDragTask, hFind, differenceInDays, h0]
  · intro hne'
    have hd : ¬ (differenceInDays newStart t.start = 0) := by
      unfold differenceInDays
      intro h
      exact hne' (by linarith)
    have hmain : handleDragTask proj taskId newStart
        = some (proj.tasks.map (fun task =>
            if idMem task g.taskIds then
              { task with start := addDays task.start (differenceInDays newStart t.start),
                          «end» := addDays task.«end» (differenceInDays newStart t.start) }
            else task)) := by
      simp [handleDragTask, hFind, hd, hTruthy, hGroup]
    refine ⟨_, hmain, by simp, ?_⟩
    intro i hi
    constructor <;> intro hmem
    · simp [List.getElem?_map, List.getElem?_eq_getElem hi, hmem, addDays, differenceInDays]
    · simp [List.getElem?_map, List.getElem?_eq_getElem hi, hmem]

/-- Witness for C2: dragging task 1 of group G (members 1 and 2) to day 5
shifts both members by 5 days and leaves task 3 alone. -/
theorem claim2_witness :
    ∃ out, handleDragTask wProj 1 5 = some out ∧
      out.length = wProj.tasks.length ∧
      ∀ i, (hi : i < wProj.tasks.length) →
        (idMem wProj.tasks[i] wGroup.taskIds = true →
          out[i]? = some { wProj.tasks[i] with
            start := wProj.tasks[i].start + (5 - wTask1.start),
            «end» := wProj.tasks[i].«end» + (5 - wTask1.start) }) ∧
        (idMem wProj.tasks[i] wGroup.taskIds = false → out[i]? = some wProj.tasks[i]) :=
  (claim2_group_drag_rigid wProj 1 5 wTask1 "G" wGroup
    (by decide) (by decide) (by decide) (by decide)).2 (by decide)

/-- C6: dragging a task that belongs to no group changes only that task, and
its new end is the new start plus its old business-day duration applied as
calendar days. -/
theorem claim6_ungrouped_drag (proj : Project) (taskId newStart : Int) (t : Task)
    (hFind : proj.tasks.find? (fun u => u.id == some taskId) = some t)
    (hNoGroup : t.groupId = none) (hMove : newStart ≠ t.start) :
    ∃ out, handleDragTask proj taskId newStart = some out ∧
      out.length = proj.tasks.length ∧
      ∀ i, (hi : i < proj.tasks.length) →
        (proj.tasks[i].id = some taskId →
          out[i]? = some { proj.tasks[i] with
            start := newStart,
            «end» := newStart +
              differenceInBusinessDays proj.tasks[i].«end» proj.tasks[i].start }) ∧
        (proj.tasks[i].id ≠ some taskId → out[i]? = some proj.tasks[i]) := by
  have hd : ¬ (differenceInDays newStart t.start = 0) := by
    unfold differenceInDays
    intro h
    exact hMove (by linarith)
  have hmain : handleDragTask proj taskId newStart
      = some (proj.tasks.map (fun task =>
          if task.id == some taskId then
            { task with start := newStart,
                        «end» := addDays newStart
                          (differenceInBusinessDays task.«end» task.start) }
          else task)) := by
    simp [handleDragTask, hFind, hd, truthyStr, hNoGroup]
  refine ⟨_, hmain, by simp, ?_⟩
  intro i hi
  constructor <;> intro hid
  · simp [List.getElem?_map, List.getElem?_eq_getElem hi, hid, addDays]
  · simp [List.getElem?_map, List.getElem?_eq_getElem hi, hid]

/-- Witness for C6: dragging ungrouped task 3 (one business day long, day 20
to day 21) to day 25 moves only it; its new end is 25 + 1 = 26. -/
theorem claim6_witness :
    ∃ out, handleDragTask wProj 3 25 = some out ∧
      out.length = wProj.tasks.length ∧
      ∀ i, (hi : i < wProj.tasks.length) →
        (wProj.tasks[i].id = some 3 →
          out[i]? = some { wProj.tasks[i] with
            start := 25,
            «end» := 25 +
              differenceInBusinessDays wProj.tasks[i].«end» wProj.tasks[i].start }) ∧
        (wProj.tasks[i].id ≠ some 3 → out[i]? = some wProj.tasks[i]) :=
  claim6_ungrouped_drag wProj 3 25 wTask3 (by decide) (by decide) (by decide)

/-! ### C3: dissolution threshold — helper lemmas -/

theorem filter_bne_eq_self {l : List Int} {d : Int} (h : d ∉ l) :
    l.filter (fun i => !(i == d)) = l :=
  List.filter_eq_self.mpr (fun a ha => by
    have : a ≠ d := fun e => h (e ▸ ha)
    simp [this])

theorem length_filter_bne {l : List Int} {d : Int} (hnd : l.Nodup) (hd : d ∈ l) :
    (l.filter (fun i => !(i == d))).length = l.length - 1 := by
  induction l with
  | nil => cases hd
  | cons a l ih =>
    rcases List.mem_cons.mp hd with h | hmem
    · have hnotin : a ∉ l := (List.nodup_cons.mp hnd).1
      subst h
      simp [List.filter_cons, filter_bne_eq_self hnotin]
    · have hna : a ≠ d := fun e => (List.nodup_cons.mp hnd).1 (e ▸ hmem)
      have := ih (List.nodup_cons.mp hnd).2 hmem
      have hlen : 1 ≤ l.length := List.length_pos.mpr (List.ne_nil_of_mem hmem)
      simp [List.filter_cons, hna, this]
      omega

theorem groups_shrink_keep_all {gs : List TaskGroup} {d : Int}
    (h : ∀ g' ∈ gs, d ∉ g'.taskIds ∧ 2 ≤ g'.taskIds.length) :
    ((gs.map (fun g' => { g' with taskIds := g'.taskIds.filter (fun i => !(i == d)) })).filter
      (fun g' => 1 < g'.taskIds.length)) = gs := by
  induction gs with
  | nil => rfl
  | cons a gs ih =>
    obtain ⟨hda, hla⟩ := h a (List.mem_cons_self a gs)
    have ha' : ({ a with taskIds := a.taskIds.filter (fun i => !(i == d)) } : TaskGroup) = a := by
      rw [filter_bne_eq_self hda]
    have h1 : 1 < a.taskIds.length := by omega
    simp only [List.map_cons, ha', List.filter_cons]
    simp [h1, ih (fun g' hg' => h g' (List.mem_cons_of_mem a hg'))]

theorem delete_groups_shrink_two {gs : List TaskGroup} {d : Int} {g : TaskGroup}
    (hg : g ∈ gs) (hIds : (gs.map TaskGroup.id).Nodup)
    (hOnly : ∀ g' ∈ gs, g' ≠ g → d ∉ g'.taskIds)
    (hMin : ∀ g' ∈ gs, 2 ≤ g'.taskIds.length)
    (hd : d ∈ g.taskIds) (hlen : g.taskIds.length = 2) (hnd : g.taskIds.Nodup) :
    ((gs.map (fun g' => { g' with taskIds := g'.taskIds.filter (fun i => !(i == d)) })).filter
      (fun g' => 1 < g'.taskIds.length)) = gs.filter (fun g' => !(g'.id == g.id)) := by
  induction gs with
  | nil => cases hg
  | cons a gs ih =>
    have hIa : a.id ∉ gs.map TaskGroup.id := (List.nodup_cons.mp hIds).1
    have hIds' : (gs.map TaskGroup.id).Nodup := (List.nodup_cons.mp hIds).2
    rcases List.mem_cons.mp hg with h | hmem
    · subst h
      have htail : ∀ g' ∈ gs, d ∉ g'.taskIds ∧ 2 ≤ g'.taskIds.length := by
        intro g' hg'
        have hne : g' ≠ g := fun e =>
          hIa (e ▸ List.mem_map_of_mem TaskGroup.id hg')
        exact ⟨hOnly g' (List.mem_cons_of_mem g hg') hne,
          hMin g' (List.mem_cons_of_mem g hg')⟩
      have hlen1 : (g.taskIds.filter (fun i => !(i == d))).length = 1 := by
        rw [length_filter_bne hnd hd, hlen]
      have hkeep : gs.filter (fun g' => !(g'.id == g.id)) = gs :=
        List.filter_eq_self.mpr (fun g' hg' => by
          have : g'.id ≠ g.id := fun e =>
            hIa (e ▸ List.mem_map_of_mem TaskGroup.id hg')
          simp [this])
      simp only [List.map_cons, List.filter_cons]
      rw [groups_shrink_keep_all htail, hkeep]
      simp [hlen1]
    · have hga : a ≠ g := fun e => hIa (by rw [e]; exact List.mem_map_of_mem TaskGroup.id hmem)
      have haid : a.id ≠ g.id := fun e => hIa (e ▸ List.mem_map_of_mem TaskGroup.id hmem)
      have hda : d ∉ a.taskIds := hOnly a (List.mem_cons_self a gs) hga
      have hla : 2 ≤ a.taskIds.length := hMin a (List.mem_cons_self a gs)
      have ha' : ({ a with taskIds := a.taskIds.filter (fun i => !(i == d)) } : TaskGroup) = a := by
        rw [filter_bne_eq_self hda]
      have h1 : 1 < a.taskIds.length := by omega
      have ihr := ih hmem hIds'
        (fun g' hg' => hOnly g' (List.mem_cons_of_mem a hg'))
        (fun g' hg' => hMin g' (List.mem_cons_of_mem a hg'))
      simp only [List.map_cons, ha', List.filter_cons]
      simp [h1, haid, ihr]

theorem filter_id_eq_single {gs : List TaskGroup} {g : TaskGroup}
    (hg : g ∈ gs) (hIds : (gs.map TaskGroup.id).Nodup) :
    gs.filter (fun g0 => g0.id == g.id) = [g] := by
  induction gs with
  | nil => cases hg
  | cons a gs ih =>
    have hIa : a.id ∉ gs.map TaskGroup.id := (List.nodup_cons.mp hIds).1
    have hIds' : (gs.map TaskGroup.id).Nodup := (List.nodup_cons.mp hIds).2
    rcases List.mem_cons.mp hg with h | hmem
    · subst h
      have hnil : gs.filter (fun g0 => g0.id == g.id) = [] := by
        rw [List.filter_eq_nil_iff]
        intro g0 hg0
        have : g0.id ≠ g.id := fun e =>
          hIa (e ▸ List.mem_map_of_mem TaskGroup.id hg0)
        simp [this]
      simp [List.filter_cons, hnil]
    · have haid : a.id ≠ g.id := fun e => hIa (e ▸ List.mem_map_of_mem TaskGroup.id hmem)
      simp [List.filter_cons, haid, ih hmem hIds']

theorem dissolved_ids_two {gs : List TaskGroup} {g : TaskGroup}
    (hg : g ∈ gs) (hIds : (gs.map TaskGroup.id).Nodup) :
    ((gs.filter (fun g0 =>
        !((gs.filter (fun g' => !(g'.id == g.id))).any (fun ng => ng.id == g0.id)))).map
      TaskGroup.id) = [g.id] := by
  have hpt : ∀ g0 ∈ gs,
      (!((gs.filter (fun g' => !(g'.id == g.id))).any (fun ng => ng.id == g0.id)))
        = (g0.id == g.id) := by
    intro g0 hg0
    by_cases hc : g0.id = g.id
    · simp only [hc, beq_self_eq_true, Bool.not_eq_true']
      rw [List.any_eq_false]
      intro ng hng
      have h2 := (List.mem_filter.mp hng).2
      simp only [Bool.not_eq_true', beq_eq_false_iff_ne] at h2
      simp [h2]
    · have hmem0 : g0 ∈ gs.filter (fun g' => !(g'.id == g.id)) :=
        List.mem_filter.mpr ⟨hg0, by simp [hc]⟩
      have hany : (gs.filter (fun g' => !(g'.id == g.id))).any (fun ng => ng.id == g0.id) := by
        rw [List.any_eq_true]
        exact ⟨g0, hmem0, by simp⟩
      simp [hany, hc]
  rw [List.filter_congr hpt, filter_id_eq_single hg hIds]
  rfl

theorem dissolved_ids_many {gs : List TaskGroup} {d : Int} {g : TaskGroup} :
    ((gs.filter (fun g0 =>
        !((gs.map (fun g' => if g'.id == g.id
            then { g' with taskIds := g'.taskIds.filter (fun i => !(i == d)) } else g')).any
          (fun ng => ng.id == g0.id)))).map
      TaskGroup.id) = [] := by
  have hnil : gs.filter (fun g0 =>
      !((gs.map (fun g' => if g'.id == g.id
          then { g' with taskIds := g'.taskIds.filter (fun i => !(i == d)) } else g')).any
        (fun ng => ng.id == g0.id))) = [] := by
    rw [List.filter_eq_nil_iff]
    intro g0 hg0
    have hany : (gs.map (fun g' => if g'.id == g.id
        then { g' with taskIds := g'.taskIds.filter (fun i => !(i == d)) } else g')).any
        (fun ng => ng.id == g0.id) := by
      rw [List.any_eq_true]
      refine ⟨if g0.id == g.id
        then { g0 with taskIds := g0.taskIds.filter (fun i => !(i == d)) } else g0,
        List.mem_map_of_mem _ hg0, ?_⟩
      by_cases hc : g0.id = g.id <;> simp [hc]
    intro hcon
    rw [hany] at hcon
    simp at hcon
  rw [hnil]
  rfl

theorem delete_groups_shrink_many {gs : List TaskGroup} {d : Int} {g : TaskGroup}
    (hg : g ∈ gs) (hIds : (gs.map TaskGroup.id).Nodup)
    (hOnly : ∀ g' ∈ gs, g' ≠ g → d ∉ g'.taskIds)
    (hMin : ∀ g' ∈ gs, 2 ≤ g'.taskIds.length)
    (hd : d ∈ g.taskIds) (hlen : 3 ≤ g.taskIds.length) (hnd : g.taskIds.Nodup) :
    ((gs.map (fun g' => { g' with taskIds := g'.taskIds.filter (fun i => !(i == d)) })).filter
      (fun g' => 1 < g'.taskIds.length))
    = gs.map (fun g' => if g'.id == g.id
        then { g' with taskIds := g'.taskIds.filter (fun i => !(i == d)) } else g') := by
  induction gs with
  | nil => cases hg
  | cons a gs ih =>
    have hIa : a.id ∉ gs.map TaskGroup.id := (List.nodup_cons.mp hIds).1
    have hIds' : (gs.map TaskGroup.id).Nodup := (List.nodup_cons.mp hIds).2
    rcases List.mem_cons.mp hg with h | hmem
    · subst h
      have hlen1 : 1 < (g.taskIds.filter (fun i => !(i == d))).length := by
        rw [length_filter_bne hnd hd]
        omega
      have htail : ∀ g' ∈ gs,
          (if g'.id == g.id
            then { g' with taskIds := g'.taskIds.filter (fun i => !(i == d)) } else g') = g' := by
        intro g' hg'
        have : g'.id ≠ g.id := fun e =>
          hIa (e ▸ List.mem_map_of_mem TaskGroup.id hg')
        simp [this]
      have htail2 : ∀ g' ∈ gs, d ∉ g'.taskIds ∧ 2 ≤ g'.taskIds.length := by
        intro g' hg'
        have hne : g' ≠ g := fun e =>
          hIa (e ▸ List.mem_map_of_mem TaskGroup.id hg')
        exact ⟨hOnly g' (List.mem_cons_of_mem g hg') hne,
          hMin g' (List.mem_cons_of_mem g hg')⟩
      simp only [List.map_cons, List.filter_cons]
      rw [groups_shrink_keep_all htail2]
      rw [List.map_congr_left htail]
      simp [hlen1]
    · have hga : a ≠ g := fun e => hIa (by rw [e]; exact List.mem_map_of_mem TaskGroup.id hmem)
      have haid : a.id ≠ g.id := fun e => hIa (e ▸ List.mem_map_of_mem TaskGroup.id hmem)
      have hda : d ∉ a.taskIds := hOnly a (List.mem_cons_self a gs) hga
      have hla : 2 ≤ a.taskIds.length := hMin a (List.mem_cons_self a gs)
      have ha' : ({ a with taskIds := a.taskIds.filter (fun i => !(i == d)) } : TaskGroup) = a := by
        rw [filter_bne_eq_self hda]
      have h1 : 1 < a.taskIds.length := by omega
      have ihr := ih hmem hIds'
        (fun g' hg' => hOnly g' (List.mem_cons_of_mem a hg'))
        (fun g' hg' => hMin g' (List.mem_cons_of_mem a hg'))
      simp only [List.map_cons, ha', List.filter_cons]
      simp [h1, haid, ihr]

theorem clear_compose (d : Int) (gid : String) (t : Task) :
    (fun u => if ([gid] : List String).contains (u.groupId.getD "")
        then { u with groupId := none } else u)
      (if t.predecessorId == some d then { t with predecessorId := none } else t)
    = { t with
        predecessorId := if t.predecessorId == some d then none else t.predecessorId,
        groupId := if t.groupId == some gid then none else t.groupId } := by
  cases t with
  | mk tid tname ts te tp tpred tgrp tunit =>
    by_cases hp : tpred = some d <;> cases tgrp with
    | none =>
      by_cases hgid : gid = "" <;> simp [hp, hgid, List.contains, List.elem]
    | some s =>
      by_cases hs : s = gid
      · simp [hp, hs, List.contains, List.elem]
      · have hb : (s == gid) = false := by simp [hs]
        simp [hp, hs, List.contains, List.elem, hb]

theorem predClear_pointwise (d : Int) (t : Task) :
    (if t.predecessorId == some d then { t with predecessorId := none } else t)
    = { t with predecessorId := if t.predecessorId == some d then none else t.predecessorId } := by
  by_cases hp : t.predecessorId = some d <;> simp [hp]

theorem find?_map_id_pres {gs : List TaskGroup} {gid : String} {g : TaskGroup}
    (f : TaskGroup → TaskGroup) (hf : ∀ g', (f g').id = g'.id)
    (hfg : gs.find? (fun g' => g'.id == gid) = some g) :
    (gs.map f).find? (fun g' => g'.id == gid) = some (f g) := by
  induction gs with
  | nil => cases hfg
  | cons a gs ih =>
    by_cases ha : a.id = gid
    · rw [List.find?_cons_of_pos _ (by simp [ha])] at hfg
      cases hfg
      rw [List.map_cons, List.find?_cons_of_pos _ (by simp [hf, ha])]
    · rw [List.find?_cons_of_neg _ (by simp [ha])] at hfg
      rw [List.map_cons, List.find?_cons_of_neg _ (by simp [hf, ha])]
      exact ih hfg

theorem filter_map_id_pres (gs : List TaskGroup) (gid : String)
    (f : TaskGroup → TaskGroup) (hf : ∀ g', (f g').id = g'.id)
    (hff : ∀ g', g'.id ≠ gid → f g' = g') :
    (gs.map f).filter (fun g' => !(g'.id == gid)) = gs.filter (fun g' => !(g'.id == gid)) := by
  induction gs with
  | nil => rfl
  | cons a gs ih =>
    by_cases ha : a.id = gid
    · simp only [List.map_cons, List.filter_cons, hf, ha]
      simp [ih]
    · simp only [List.map_cons, List.filter_cons, hf, ha]
      simp [ha, hff a ha, ih]

/-- C3: dissolution threshold.  Deleting a member of a 2-member group removes
the group and clears `groupId` on every task still tagged with it, while a
group with 3 or more members merely loses that member (no task's `groupId`
changes); in both cases every task referencing the deleted task as
predecessor has `predecessorId` cleared.  Ungrouping behaves the same:
a 2-member group dissolves (its group removed, both members' `groupId`
cleared), a 3-or-more-member group keeps its other members and only the
ungrouped task's `groupId` is cleared. -/
theorem claim3_dissolution_threshold (proj : Project) :
    (∀ d t0 g, proj.tasks.find? (fun u => u.id == some d) = some t0 →
      g ∈ proj.taskGroups → (proj.taskGroups.map TaskGroup.id).Nodup →
      (∀ g' ∈ proj.taskGroups, g' ≠ g → d ∉ g'.taskIds) →
      (∀ g' ∈ proj.taskGroups, 2 ≤ g'.taskIds.length) →
      d ∈ g.taskIds → g.taskIds.Nodup →
      (g.taskIds.length = 2 →
        confirmDeleteTask proj d = some (
          (proj.tasks.filter (fun t => !(t.id == some d))).map (fun t =>
            { t with
              predecessorId := if t.predecessorId == some d then none else t.predecessorId,
              groupId := if t.groupId == some g.id then none else t.groupId }),
          proj.taskGroups.filter (fun g' => !(g'.id == g.id)))) ∧
      (3 ≤ g.taskIds.length →
        confirmDeleteTask proj d = some (
          (proj.tasks.filter (fun t => !(t.id == some d))).map (fun t =>
            { t with
              predecessorId := if t.predecessorId == some d then none else t.predecessorId }),
          proj.taskGroups.map (fun g' => if g'.id == g.id
            then { g' with taskIds := g'.taskIds.filter (fun i => !(i == d)) } else g')) ∧
        (g.taskIds.filter (fun i => !(i == d))).length = g.taskIds.length - 1)) ∧
    (∀ tid t0 gid g, proj.tasks.find? (fun u => u.id == some tid) = some t0 →
      t0.groupId = some gid → gid ≠ "" →
      proj.taskGroups.find? (fun g' => g'.id == gid) = some g →
      tid ∈ g.taskIds → g.taskIds.Nodup →
      (g.taskIds.length = 2 →
        handleUngroupTask proj tid = some (
          proj.tasks.map (fun t =>
            if t.id == some tid || t.groupId == some gid
              then { t with groupId := none } else t),
          proj.taskGroups.filter (fun g' => !(g'.id == gid)))) ∧
      (3 ≤ g.taskIds.length →
        handleUngroupTask proj tid = some (
          proj.tasks.map (fun t =>
            if t.id == some tid then { t with groupId := none } else t),
          proj.taskGroups.map (fun g' => if g'.id == gid
            then { g' with taskIds := g'.taskIds.filter (fun i => !(i == tid)) } else g')) ∧
        (g.taskIds.filter (fun i => !(i == tid))).length = g.taskIds.length - 1)) := by
  constructor
  · intro d t0 g hFind hg hIds hOnly hMin hd hnd
    constructor
    · intro hlen2
      simp only [confirmDeleteTask, hFind]
      rw [delete_groups_shrink_two hg hIds hOnly hMin hd hlen2 hnd]
      rw [dissolved_ids_two hg hIds]
      rw [List.map_map]
      have hpt : ∀ t ∈ proj.tasks.filter (fun t => !(t.id == some d)),
          ((fun u => if ([g.id] : List String).contains (u.groupId.getD "")
              then { u with groupId := none } else u) ∘
            (fun t => if t.predecessorId == some d
              then { t with predecessorId := none } else t)) t
          = { t with
              predecessorId := if t.predecessorId == some d then none else t.predecessorId,
              groupId := if t.groupId == some g.id then none else t.groupId } := by
        intro t _
        simp only [Function.comp_apply]
        exact clear_compose d g.id t
      rw [List.map_congr_left hpt]
    · intro hlen3
      refine ⟨?_, length_filter_bne hnd hd⟩
      simp only [confirmDeleteTask, hFind]
      rw [delete_groups_shrink_many hg hIds hOnly hMin hd hlen3 hnd]
      rw [dissolved_ids_many]
      have hclr : ∀ u ∈ (proj.tasks.filter (fun t => !(t.id == some d))).map
          (fun t => if t.predecessorId == some d then { t with predecessorId := none } else t),
          (if (([] : List String)).contains (u.groupId.getD "")
            then { u with groupId := none } else u) = u := by
        intro u _
        simp
      rw [List.map_congr_left hclr, List.map_id']
      rw [List.map_congr_left (fun t _ => predClear_pointwise d t)]
  · intro tid t0 gid g hFind ht0 hne hfg htid hnd
    have htr : truthyStr t0.groupId = some gid := by simp [truthyStr, ht0, hne]
    have hgid : g.id = gid := by simpa using List.find?_some hfg
    have hfind2 : (proj.taskGroups.map (fun g' => if g'.id == gid
          then { g' with taskIds := g'.taskIds.filter (fun i => !(i == tid)) } else g')).find?
        (fun g' => g'.id == gid)
        = some (if g.id == gid
          then { g with taskIds := g.taskIds.filter (fun i => !(i == tid)) } else g) :=
      find?_map_id_pres _ (fun g' => by by_cases h : g'.id = gid <;> simp [h]) hfg
    rw [if_pos (by simp [hgid])] at hfind2
    constructor
    · intro hlen2
      have hlen1 : (g.taskIds.filter (fun i => !(i == tid))).length = 1 := by
        rw [length_filter_bne hnd htid, hlen2]
      have hfiltereq := filter_map_id_pres proj.taskGroups gid
        (fun g' => if g'.id == gid
          then { g' with taskIds := g'.taskIds.filter (fun i => !(i == tid)) } else g')
        (fun g' => by by_cases h : g'.id = gid <;> simp [h])
        (fun g' h => by simp [h])
      simp only [handleUngroupTask, hFind, htr, hfind2, hlen1]
      simp
      simpa using hfiltereq
    · intro hlen3
      refine ⟨?_, length_filter_bne hnd htid⟩
      have hlenge : ¬ ((g.taskIds.filter (fun i => !(i == tid))).length < 2) := by
        rw [length_filter_bne hnd htid]
        omega
      simp only [handleUngroupTask, hFind, htr, hfind2]
      simp [hlenge]

/-- Task 1 of the dissolution sample (member of the 2-member group). -/
def w3TaskA : Task := ⟨some 1, "a", 0, 1, 0, none, some "G2", none⟩

/-- Task 2 of the dissolution sample (member of the 2-member group,
with task 1 as predecessor). -/
def w3TaskB : Task := ⟨some 2, "b", 2, 3, 0, some 1, some "G2", none⟩

/-- Task 3 of the dissolution sample (member of the 3-member group). -/
def w3TaskC : Task := ⟨some 3, "c", 4, 5, 0, none, some "G3", none⟩

/-- Task 4 of the dissolution sample (member of the 3-member group). -/
def w3TaskD : Task := ⟨some 4, "d", 6, 7, 0, none, some "G3", none⟩

/-- Task 5 of the dissolution sample (member of the 3-member group). -/
def w3TaskE : Task := ⟨some 5, "e", 8, 9, 0, none, some "G3", none⟩

/-- The 2-member group of the dissolution sample. -/
def w3G2 : TaskGroup := ⟨"G2", none, [1, 2], "#f87171"⟩

/-- The 3-member group of the dissolution sample. -/
def w3G3 : TaskGroup := ⟨"G3", none, [3, 4, 5], "#fb923c"⟩

/-- The dissolution sample project. -/
def w3Proj : Project :=
  ⟨"p3", "P3", 0, 60, [w3TaskA, w3TaskB, w3TaskC, w3TaskD, w3TaskE], [w3G2, w3G3], []⟩

/-- Witness for C3 at the sample project: deleting task 1 dissolves the
2-member group and clears task 2's `groupId` and `predecessorId`; deleting
task 3 keeps the 3-member group with 2 members; ungrouping behaves in
parallel. -/
theorem claim3_witness :
    (confirmDeleteTask w3Proj 1 = some (
      (w3Proj.tasks.filter (fun t => !(t.id == some 1))).map (fun t =>
        { t with
          predecessorId := if t.predecessorId == some 1 then none else t.predecessorId,
          groupId := if t.groupId == some w3G2.id then none else t.groupId }),
      w3Proj.taskGroups.filter (fun g' => !(g'.id == w3G2.id)))) ∧
    (confirmDeleteTask w3Proj 3 = some (
      (w3Proj.tasks.filter (fun t => !(t.id == some 3))).map (fun t =>
        { t with
          predecessorId := if t.predecessorId == some 3 then none else t.predecessorId }),
      w3Proj.taskGroups.map (fun g' => if g'.id == w3G3.id
        then { g' with taskIds := g'.taskIds.filter (fun i => !(i == 3)) } else g'))) ∧
    (handleUngroupTask w3Proj 1 = some (
      w3Proj.tasks.map (fun t =>
        if t.id == some 1 || t.groupId == some "G2" then { t with groupId := none } else t),
      w3Proj.taskGroups.filter (fun g' => !(g'.id == "G2")))) ∧
    (handleUngroupTask w3Proj 3 = some (
      w3Proj.tasks.map (fun t =>
        if t.id == some 3 then { t with groupId := none } else t),
      w3Proj.taskGroups.map (fun g' => if g'.id == "G3"
        then { g' with taskIds := g'.taskIds.filter (fun i => !(i == 3)) } else g'))) :=
  ⟨((claim3_dissolution_threshold w3Proj).1 1 w3TaskA w3G2 (by decide) (by decide)
      (by decide) (by decide) (by decide) (by decide) (by decide)).1 (by decide),
   (((claim3_dissolution_threshold w3Proj).1 3 w3TaskC w3G3 (by decide) (by decide)
      (by decide) (by decide) (by decide) (by decide) (by decide)).2 (by decide)).1,
   ((claim3_dissolution_threshold w3Proj).2 1 w3TaskA "G2" w3G2 (by decide) (by decide)
      (by decide) (by decide) (by decide) (by decide)).1 (by decide),
   (((claim3_dissolution_threshold w3Proj).2 3 w3TaskC "G3" w3G3 (by decide) (by decide)
      (by decide) (by decide) (by decide) (by decide)).2 (by decide)).1⟩

/-! ### C7: create-group rejection atomicity -/

/-- C7: with at least two selected ids, the create-group operation is
rejected (returns no update, so no state mutation) when any selected task
already carries a group id; on success every selected task is tagged with the
supplied fresh group id, no other task changes, and the new group (holding
exactly the selected ids) is appended to the group list. -/
theorem claim7_create_group (proj : Project) (sel : List Int) (newGroupId : String)
    (hLen : 2 ≤ sel.length) :
    ((∃ i ∈ sel, ∃ t, proj.tasks.find? (fun u => u.id == some i) = some t ∧
        ∃ s, t.groupId = some s ∧ s ≠ "") →
      handleCreateGroup proj sel newGroupId = none) ∧
    ((∀ i ∈ sel, ∀ t, proj.tasks.find? (fun u => u.id == some i) = some t →
        t.groupId = none) →
      ∃ ts' c, handleCreateGroup proj sel newGroupId
          = some (ts', proj.taskGroups ++ [⟨newGroupId, none, sel, c⟩]) ∧
        ts'.length = proj.tasks.length ∧
        ∀ j, (hj : j < proj.tasks.length) →
          (idMem proj.tasks[j] sel = true →
            ts'[j]? = some { proj.tasks[j] with groupId := some newGroupId }) ∧
          (idMem proj.tasks[j] sel = false → ts'[j]? = some proj.tasks[j])) := by
  have hnotlt : ¬ (sel.length < 2) := by omega
  constructor
  · rintro ⟨i, hi, t, hfind, s, hs, hsne⟩
    have hany : sel.any (fun i =>
        match proj.tasks.find? (fun t => t.id == some i) with
        | some t => !((truthyStr t.groupId) == none)
        | none => false) = true := by
      rw [List.any_eq_true]
      refine ⟨i, hi, ?_⟩
      rw [hfind]
      simp [truthyStr, hs, hsne]
    simp [handleCreateGroup, hnotlt, hany]
  · intro hnone
    have hany : sel.any (fun i =>
        match proj.tasks.find? (fun t => t.id == some i) with
        | some t => !((truthyStr t.groupId) == none)
        | none => false) = false := by
      rw [List.any_eq_false]
      intro i hi
      cases hfind : proj.tasks.find? (fun t => t.id == some i) with
      | none => exact (by decide : ¬ (false = true))
      | some t =>
        have := hnone i hi t hfind
        simp [truthyStr, this]
    have hmain : handleCreateGroup proj sel newGroupId
        = some (proj.tasks.map (fun task =>
            if idMem task sel then { task with groupId := some newGroupId } else task),
          proj.taskGroups ++ [⟨newGroupId, none, sel,
            groupColors.getD (proj.taskGroups.length % groupColors.length) ""⟩]) := by
      simp [handleCreateGroup, hnotlt, hany]
    refine ⟨_, _, hmain, by simp, ?_⟩
    intro j hj
    constructor <;> intro hmem <;>
      simp [List.getElem?_map, List.getElem?_eq_getElem hj, hmem]

/-- Project with two ungrouped tasks for the create-group success case. -/
def wC7Proj : Project :=
  ⟨"p7", "P7", 0, 30,
   [⟨some 1, "x", 0, 1, 0, none, none, none⟩,
    ⟨some 2, "y", 2, 3, 0, none, none, none⟩,
    ⟨some 3, "z", 4, 5, 0, none, none, none⟩], [], []⟩

/-- Witness for C7: selecting task 1 of the dissolution sample (already in
group G2) together with task 3 rejects the creation; selecting the two free
tasks 1 and 2 of the ungrouped sample succeeds and tags exactly them. -/
theorem claim7_witness :
    handleCreateGroup w3Proj [1, 3] "group-1" = none ∧
    (∃ ts' c, handleCreateGroup wC7Proj [1, 2] "group-9"
        = some (ts', wC7Proj.taskGroups ++ [⟨"group-9", none, [1, 2], c⟩]) ∧
      ts'.length = wC7Proj.tasks.length ∧
      ∀ j, (hj : j < wC7Proj.tasks.length) →
        (idMem wC7Proj.tasks[j] [1, 2] = true →
          ts'[j]? = some { wC7Proj.tasks[j] with groupId := some "group-9" }) ∧
        (idMem wC7Proj.tasks[j] [1, 2] = false → ts'[j]? = some wC7Proj.tasks[j])) :=
  ⟨(claim7_create_group w3Proj [1, 3] "group-1" (by decide)).1
      ⟨1, by decide, w3TaskA, by decide, "G2", by decide, by decide⟩,
    (claim7_create_group wC7Proj [1, 2] "group-9" (by decide)).2 (by decide)⟩

/-! ### C8: task id allocation on create -/

/-- Project with task ids {1, 3, 7} for the id-allocation claim. -/
def w8Proj : Project :=
  ⟨"p8", "P8", 0, 30,
   [⟨some 1, "x", 0, 1, 0, none, none, none⟩,
    ⟨some 3, "y", 2, 3, 0, none, none, none⟩,
    ⟨some 7, "z", 4, 5, 0, none, none, none⟩], [], []⟩

/-- C8 at the failing input: the create branch computes `max(ids) + 1 = 8`,
but the saved task's id is `undefined`, because the form modal always sends
an `id` key (`taskToEdit?.id`, `undefined` when creating) and the create
branch builds `{ id: newId, progress: 0, ...taskData }` whose trailing spread
overwrites the allocated id.  Progress, name, start and end are as claimed.
With the id key absent the allocation would behave as the claim states. -/
theorem claim8_spread_clobbers_id :
    handleSaveTask w8Proj ⟨IdField.undef, "new", 10, 12⟩
      = w8Proj.tasks ++ [⟨none, "new", 10, 12, 0, none, none, none⟩] ∧
    (maxTaskId w8Proj.tasks).map (· + 1) = some 8 ∧
    handleSaveTask w8Proj ⟨IdField.absent, "new", 10, 12⟩
      = w8Proj.tasks ++ [⟨some 8, "new", 10, 12, 0, none, none, none⟩] ∧
    handleSaveTask ⟨"p0", "P0", 0, 30, [], [], []⟩ ⟨IdField.absent, "first", 0, 1⟩
      = [⟨some 1, "first", 0, 1, 0, none, none, none⟩] := by decide

/-! ### C10: non-date frame invariant -/

/-- All fields of a task except `start` and `end` coincide. -/
def sameFrame (u v : Task) : Prop :=
  v.id = u.id ∧ v.name = u.name ∧ v.progress = u.progress ∧
  v.predecessorId = u.predecessorId ∧ v.groupId = u.groupId ∧ v.unitId = u.unitId

/-- The output task list has the same length and order as the input and every
task keeps its non-date fields. -/
def listFrame (ts ts' : List Task) : Prop :=
  ts'.length = ts.length ∧
  ∀ i, (hi : i < ts.length) → ∀ v, ts'[i]? = some v → sameFrame ts[i] v

theorem listFrame_refl (ts : List Task) : listFrame ts ts := by
  refine ⟨rfl, ?_⟩
  intro i hi v hv
  rw [List.getElem?_eq_getElem hi] at hv
  cases hv
  exact ⟨rfl, rfl, rfl, rfl, rfl, rfl⟩

theorem listFrame_map {ts : List Task} {f : Task → Task}
    (hf : ∀ t, sameFrame t (f t)) : listFrame ts (ts.map f) := by
  refine ⟨by simp, ?_⟩
  intro i hi v hv
  rw [List.getElem?_map, List.getElem?_eq_getElem hi] at hv
  cases hv
  exact hf _

/-- C10: drag, resize, interval edit and reorder touch only `start` and
`end`: whenever they produce a task list, it has the same length and order
and every task keeps its `id`, `name`, `progress`, `predecessorId`, `groupId`
and `unitId`. -/
theorem claim10_non_date_frame (proj : Project) :
    (∀ taskId newStart out, handleDragTask proj taskId newStart = some out →
      listFrame proj.tasks out) ∧
    (∀ taskId ns ne, listFrame proj.tasks (handleResizeTask proj taskId ns ne)) ∧
    (∀ groupId pid sid gap out,
      handleUpdateTaskInterval proj groupId pid sid gap = some out →
      listFrame proj.tasks out) ∧
    (∀ groupId order,
      listFrame proj.tasks (handleReorderGroupTasks proj groupId order).tasks) := by
  refine ⟨?_, ?_, ?_, ?_⟩
  · intro taskId newStart out h
    cases hfind : proj.tasks.find? (fun t => t.id == some taskId) with
    | none => simp [handleDragTask, hfind] at h
    | some t =>
      by_cases hd : differenceInDays newStart t.start = 0
      · simp [handleDragTask, hfind, hd] at h
      · cases htr : truthyStr t.groupId with
        | some gid =>
          cases hg : proj.taskGroups.find? (fun g => g.id == gid) with
          | none => simp [handleDragTask, hfind, hd, htr, hg] at h
          | some g =>
            simp only [handleDragTask, hfind, hd, htr, hg, if_neg hd] at h
            cases h
            apply listFrame_map
            intro u
            by_cases hm : idMem u g.taskIds <;>
              simp [hm, sameFrame]
        | none =>
          simp only [handleDragTask, hfind, hd, htr, if_neg hd] at h
          cases h
          apply listFrame_map
          intro u
          by_cases hm : u.id == some taskId <;> simp [hm, sameFrame]
  · intro taskId ns ne
    apply listFrame_map
    intro u
    by_cases hm : u.id == some taskId <;> simp [handleResizeTask, hm, sameFrame]
  · intro groupId pid sid gap out h
    cases hp : proj.tasks.find? (fun t => t.id == some pid) with
    | none => simp [handleUpdateTaskInterval, hp] at h
    | some prevTask =>
      cases hs : proj.tasks.find? (fun t => t.id == some sid) with
      | none => simp [handleUpdateTaskInterval, hp, hs] at h
      | some taskToShift =>
        by_cases hd : differenceInDays (addDays prevTask.«end» gap) taskToShift.start = 0
        · simp [handleUpdateTaskInterval, hp, hs, hd] at h
        · cases hg : proj.taskGroups.find? (fun g => g.id == groupId) with
          | none => simp [handleUpdateTaskInterval, hp, hs, hd, hg] at h
          | some g =>
            simp only [handleUpdateTaskInterval, hp, hs, hg, if_neg hd] at h
            cases h
            apply listFrame_map
            intro u
            dsimp only
            split
            · exact ⟨rfl, rfl, rfl, rfl, rfl, rfl⟩
            · exact ⟨rfl, rfl, rfl, rfl, rfl, rfl⟩
  · intro groupId order
    cases hres : resolveOrdered proj.tasks order with
    | none =>
      simp only [handleReorderGroupTasks, hres, handleUpdateGroup]
      exact listFrame_refl _
    | some gts =>
      by_cases hemp : (reorderUpdates gts).isEmpty
      · simp only [handleReorderGroupTasks, hres, hemp, if_pos]
        exact listFrame_refl _
      · simp only [handleReorderGroupTasks, hres, hemp, if_neg, Bool.not_eq_true,
          if_false]
        apply listFrame_map
        rintro ⟨uid, un, us, ue, up, upred, ugrp, uunit⟩
        cases uid with
        | none => exact ⟨rfl, rfl, rfl, rfl, rfl, rfl⟩
        | some i =>
          dsimp only
          cases mapGet (reorderUpdates gts) i with
          | none => exact ⟨rfl, rfl, rfl, rfl, rfl, rfl⟩
          | some p =>
            cases p with
            | mk s e => exact ⟨rfl, rfl, rfl, rfl, rfl, rfl⟩

/-- Witness for C10 at the sample project: a group drag, a resize, an
interval edit and a reorder all keep the non-date frame. -/
theorem claim10_witness :
    listFrame wProj.tasks
      [{ wTask1 with start := 5, «end» := 7 }, { wTask2 with start := 15, «end» := 18 },
        wTask3] ∧
    listFrame wProj.tasks (handleResizeTask wProj 3 21 22) ∧
    listFrame wProj.tasks
      [wTask1, { wTask2 with start := 5, «end» := 8 }, wTask3] ∧
    listFrame wProj.tasks (handleReorderGroupTasks wProj "G" [2, 1]).tasks :=
  ⟨(claim10_non_date_frame wProj).1 1 5 _ (by decide),
   (claim10_non_date_frame wProj).2.1 3 21 22,
   (claim10_non_date_frame wProj).2.2.1 "G" 1 2 3 _ (by decide),
   (claim10_non_date_frame wProj).2.2.2 "G" [2, 1]⟩

/-! ### C4: chain shift on interval edit -/

theorem jsSliceFrom_natCast (l : List α) (k : Nat) : jsSliceFrom l (k : Int) = l.drop k := by
  unfold jsSliceFrom
  rw [if_neg (by omega)]
  simp

theorem mem_drop_map_id {l : List Task} {k : Nat} {x : Option Int} :
    x ∈ (l.drop k).map Task.id ↔ ∃ j, ∃ hj : j < l.length, k ≤ j ∧ l[j].id = x := by
  constructor
  · intro hx
    obtain ⟨t, ht, hid⟩ := List.mem_map.mp hx
    obtain ⟨m, hm, hget⟩ := List.mem_iff_getElem.mp ht
    have hml : k + m < l.length := by
      have := hm
      simp only [List.length_drop] at this
      omega
    refine ⟨k + m, hml, by omega, ?_⟩
    rw [← hid, ← hget, List.getElem_drop]
  · rintro ⟨j, hj, hkj, hx⟩
    refine List.mem_map.mpr ⟨l[j], ?_, hx⟩
    have hjd : j - k < (l.drop k).length := by
      simp only [List.length_drop]
      omega
    have : (l.drop k)[j - k] = l[j] := by
      rw [List.getElem_drop]
      congr 1
      omega
    rw [← this]
    exact List.getElem_mem _

/-- C4: the interval edit computes the shifted task's new start as
`previousTask.end + gapDays`; a zero day-delta is a no-op returning no
update; otherwise, with the group's members sorted chronologically by
current start (position `k` holding the task to shift), every member at a
sorted position `≥ k` has start and end shifted by the delta and every
member at a position `< k`, as well as every non-member, is unchanged. -/
theorem claim4_chain_shift (proj : Project) (groupId : String)
    (previousTaskId taskToShiftId gap : Int)
    (prevTask taskToShift : Task) (g : TaskGroup) (k : Nat)
    (hp : proj.tasks.find? (fun t => t.id == some previousTaskId) = some prevTask)
    (hs : proj.tasks.find? (fun t => t.id == some taskToShiftId) = some taskToShift)
    (hg : proj.taskGroups.find? (fun g' => g'.id == groupId) = some g)
    (hk : (sortedGroupTasks proj g).findIdx? (fun t => t.id == some taskToShiftId) = some k)
    (hN : ((sortedGroupTasks proj g).map Task.id).Nodup) :
    (prevTask.«end» + gap = taskToShift.start →
      handleUpdateTaskInterval proj groupId previousTaskId taskToShiftId gap = none) ∧
    (prevTask.«end» + gap ≠ taskToShift.start →
      ∃ out, handleUpdateTaskInterval proj groupId previousTaskId taskToShiftId gap
          = some out ∧
        out.length = proj.tasks.length ∧
        ∀ i, (hi : i < proj.tasks.length) →
          (∀ j, (hj : j < (sortedGroupTasks proj g).length) →
            proj.tasks[i].id = (sortedGroupTasks proj g)[j].id →
            (k ≤ j → out[i]? = some { proj.tasks[i] with
                start := proj.tasks[i].start + ((prevTask.«end» + gap) - taskToShift.start),
                «end» := proj.tasks[i].«end» + ((prevTask.«end» + gap) - taskToShift.start) }) ∧
            (j < k → out[i]? = some proj.tasks[i])) ∧
          ((∀ j, (hj : j < (sortedGroupTasks proj g).length) →
              proj.tasks[i].id ≠ (sortedGroupTasks proj g)[j].id) →
            out[i]? = some proj.tasks[i])) := by
  constructor
  · intro h0
    simp [handleUpdateTaskInterval, hp, hs, differenceInDays, addDays, h0]
  · intro hne
    have hd : ¬ (differenceInDays (addDays prevTask.«end» gap) taskToShift.start = 0) := by
      unfold differenceInDays addDays
      intro h
      exact hne (by linarith)
    have hmain : handleUpdateTaskInterval proj groupId previousTaskId taskToShiftId gap
        = some (proj.tasks.map (fun t =>
            if (((sortedGroupTasks proj g).drop k).map Task.id).contains t.id then
              { t with
                start := addDays t.start (differenceInDays (addDays prevTask.«end» gap) taskToShift.start),
                «end» := addDays t.«end» (differenceInDays (addDays prevTask.«end» gap) taskToShift.start) }
            else t)) := by
      simp only [handleUpdateTaskInterval, hp, hs, hg, if_neg hd, hk]
      rw [jsSliceFrom_natCast]
    refine ⟨_, hmain, by simp, ?_⟩
    intro i hi
    constructor
    · intro j hj hideq
      constructor
      · intro hkj
        have hmem : proj.tasks[i].id ∈ ((sortedGroupTasks proj g).drop k).map Task.id :=
          mem_drop_map_id.mpr ⟨j, hj, hkj, hideq.symm⟩
        have hmem2 : proj.tasks[i].id ∈ ((sortedGroupTasks proj g).map Task.id).drop k := by
          rwa [List.map_drop] at hmem
        simp [List.getElem?_map, List.getElem?_eq_getElem hi, hmem2, addDays,
          differenceInDays]
      · intro hjk
        have hnm : proj.tasks[i].id ∉ ((sortedGroupTasks proj g).map Task.id).drop k := by
          rw [← List.map_drop]
          intro hmem
          obtain ⟨j', hj', hkj', hid'⟩ := mem_drop_map_id.mp hmem
          have hjj : j' = j := by
            have h1 : ((sortedGroupTasks proj g).map Task.id).get ⟨j', by simpa using hj'⟩
                = ((sortedGroupTasks proj g).map Task.id).get ⟨j, by simpa using hj⟩ := by
              simp only [List.get_eq_getElem, List.getElem_map]
              rw [hid', hideq]
            simpa using (hN.get_inj_iff).mp h1
          omega
        simp [List.getElem?_map, List.getElem?_eq_getElem hi, hnm]
    · intro hno
      have hnm : proj.tasks[i].id ∉ ((sortedGroupTasks proj g).map Task.id).drop k := by
        rw [← List.map_drop]
        intro hmem
        obtain ⟨j', hj', _, hid'⟩ := mem_drop_map_id.mp hmem
        exact hno j' hj' hid'.symm
      simp [List.getElem?_map, List.getElem?_eq_getElem hi, hnm]

/-- Witness for C4: in group G (members 1 and 2, chronologically [1, 2]),
setting the gap after task 1 to 3 days moves task 2 (sorted position 1) from
start 10 to 5 and leaves task 1 and the non-member task 3 unchanged. -/
theorem claim4_witness :
    ∃ out, handleUpdateTaskInterval wProj "G" 1 2 3 = some out ∧
      out.length = wProj.tasks.length ∧
      ∀ i, (hi : i < wProj.tasks.length) →
        (∀ j, (hj : j < (sortedGroupTasks wProj wGroup).length) →
          wProj.tasks[i].id = (sortedGroupTasks wProj wGroup)[j].id →
          (1 ≤ j → out[i]? = some { wProj.tasks[i] with
              start := wProj.tasks[i].start + ((wTask1.«end» + 3) - wTask2.start),
              «end» := wProj.tasks[i].«end» + ((wTask1.«end» + 3) - wTask2.start) }) ∧
          (j < 1 → out[i]? = some wProj.tasks[i])) ∧
        ((∀ j, (hj : j < (sortedGroupTasks wProj wGroup).length) →
            wProj.tasks[i].id ≠ (sortedGroupTasks wProj wGroup)[j].id) →
          out[i]? = some wProj.tasks[i]) :=
  (claim4_chain_shift wProj "G" 1 2 3 wTask1 wTask2 wGroup 1
    (by decide) (by decide) (by decide) (by decide) (by decide)).2 (by decide)

/-! ### C5: reorder relayout and order persistence -/

/-- C5 at the failing input: reordering group G of the sample project to
[2, 1] relays the dates exactly as the claim states (the new first member,
task 2, keeps 10..13; task 1 restarts one day after at 14 with its 2-day
duration, ending 16), but the group's stored `taskIds` is still [1, 2]: the
handler's second state update is computed from the closure's pre-reorder
project snapshot and replaces the whole project, reverting the
`handleUpdateGroup` write that had persisted [2, 1]. -/
theorem claim5_reorder_order_not_persisted :
    handleReorderGroupTasks wProj "G" [2, 1]
      = { wProj with tasks :=
          [{ wTask1 with start := 14, «end» := 16 }, wTask2, wTask3] } ∧
    (handleReorderGroupTasks wProj "G" [2, 1]).taskGroups = [wGroup] ∧
    wGroup.taskIds = [1, 2] ∧
    (handleUpdateGroup wProj "G" [2, 1]).taskGroups = [{ wGroup with taskIds := [2, 1] }] := by
  decide

/-! ### C9: markdown note import -/

/-- File with a well-formed front-matter header and an empty body. -/
def cex9File : MdFile := ⟨"task.md", "---\nscheduled: 2024-01-02\n---"⟩

/-- C9 counterexample: a file with a well-formed header but an EMPTY body is
not skipped — the current parser takes the task name from the file name and
ignores the body entirely, so it produces a task (scheduled on the header
date 2024-01-02, day 19724). -/
theorem claim9_counterexample :
    (jsSplit cex9File.content "---").getD 2 [] = [] ∧
    (jsSplit cex9File.content "---").length = 3 ∧
    parseSingleMdFile 0 cex9File = some ⟨"task", some 19724, some 19724, 0⟩ := by
  decide

/-- C9 (amended): a file whose content has fewer than three `---`-separated
parts, or whose extension-stripped file name is empty, is skipped; any other
file produces a task named after the file (extension stripped), scheduled on
the header's `scheduled:` date when present and valid (falling back to
today), spanning `max(1, ceil(timeEstimate / 86400))` calendar days (a single
day when no `timeEstimate:` header is given); the body is ignored.  A
skipped file leaves the rest of the batch untouched and a parsed file
contributes exactly one task in order. -/
theorem claim9_md_import (today : Int) (file : MdFile) :
    ((jsSplit file.content "---").length < 3 → parseSingleMdFile today file = none) ∧
    (¬ (jsSplit file.content "---").length < 3 →
      String.mk (trimWs (stripMdExt file.name.data)) = "" →
      parseSingleMdFile today file = none) ∧
    (¬ (jsSplit file.content "---").length < 3 →
      String.mk (trimWs (stripMdExt file.name.data)) ≠ "" →
      ∃ td, parseSingleMdFile today file = some td ∧
        td.name = String.mk (trimWs (stripMdExt file.name.data)) ∧
        td.progress = 0 ∧
        (scanScheduled ((jsSplit file.content "---").getD 1 []) = none →
          td.start = some today) ∧
        (∀ y m d, scanScheduled ((jsSplit file.content "---").getD 1 []) = some (y, m, d) →
          isValidCivil y m d = true → td.start = some (daysFromCivil y m d)) ∧
        (∀ n, scanTimeEstimate ((jsSplit file.content "---").getD 1 []) = some n →
          td.«end» = td.start.map
            (fun s => s + (((max 1 ((n + 86399) / 86400) : Nat) : Int) - 1))) ∧
        (scanTimeEstimate ((jsSplit file.content "---").getD 1 []) = none →
          td.«end» = td.start)) ∧
    (parseSingleMdFile today file = none →
      ∀ rest, parseMdFiles today (file :: rest) = parseMdFiles today rest) ∧
    (∀ td, parseSingleMdFile today file = some td →
      ∀ rest, parseMdFiles today (file :: rest) = td :: parseMdFiles today rest) := by
  refine ⟨?_, ?_, ?_, ?_, ?_⟩
  · intro hlen
    simp [parseSingleMdFile, hlen]
  · intro hlen hname
    simp [parseSingleMdFile, hlen, hname]
  · intro hlen hname
    have hmain : parseSingleMdFile today file = some {
        name := String.mk (trimWs (stripMdExt file.name.data)),
        start := (match scanScheduled ((jsSplit file.content "---").getD 1 []) with
          | some (y, m, d) => jsLocalDate y m d
          | none => some today),
        «end» := (match scanScheduled ((jsSplit file.content "---").getD 1 []) with
          | some (y, m, d) => jsLocalDate y m d
          | none => some today).map
            (fun s => addDays s
              (((max 1 ((((scanTimeEstimate ((jsSplit file.content "---").getD 1 [])).getD 0)
                  + 86399) / 86400) : Nat) : Int) - 1)),
        progress := 0 } := by
      simp [parseSingleMdFile, hlen, hname]
    refine ⟨_, hmain, rfl, rfl, ?_, ?_, ?_, ?_⟩
    · intro h
      simp at h ⊢
      simp [h]
    · intro y m d h hv
      simp at h ⊢
      simp [h, jsLocalDate, hv]
    · intro n h
      simp at h ⊢
      simp [h, addDays]
    · intro h
      simp at h ⊢
      simp [h, addDays]
  · intro h rest
    simp [parseMdFiles, List.filterMap_cons, h]
  · intro td h rest
    simp [parseMdFiles, List.filterMap_cons, h]

/-- File exercising both headers for the C9 witness. -/
def w9File : MdFile := ⟨"note.markdown", "---\nscheduled: 2024-01-02\ntimeEstimate: 90000\n---\nbody"⟩

/-- Witness for C9's theorem: the sample file produces a task named "note",
scheduled on 2024-01-02 (day 19724) and — 90000 seconds rounding up to 2
days — ending on day 19725. -/
theorem claim9_witness :
    (∃ td, parseSingleMdFile 0 w9File = some td ∧
      td.name = String.mk (trimWs (stripMdExt w9File.name.data)) ∧
      td.progress = 0 ∧
      (scanScheduled ((jsSplit w9File.content "---").getD 1 []) = none →
        td.start = some 0) ∧
      (∀ y m d, scanScheduled ((jsSplit w9File.content "---").getD 1 []) = some (y, m, d) →
        isValidCivil y m d = true → td.start = some (daysFromCivil y m d)) ∧
      (∀ n, scanTimeEstimate ((jsSplit w9File.content "---").getD 1 []) = some n →
        td.«end» = td.start.map
          (fun s => s + (((max 1 ((n + 86399) / 86400) : Nat) : Int) - 1))) ∧
      (scanTimeEstimate ((jsSplit w9File.content "---").getD 1 []) = none →
        td.«end» = td.start)) ∧
    parseSingleMdFile 0 ⟨"", "---\nx\n---"⟩ = none ∧
    parseMdFiles 0 [⟨"", "---\nx\n---"⟩, w9File]
      = parseMdFiles 0 [w9File] :=
  ⟨(claim9_md_import 0 w9File).2.2.1 (by decide) (by decide),
   ((claim9_md_import 0 ⟨"", "---\nx\n---"⟩).2.1 (by decide) (by decide)),
   (claim9_md_import 0 ⟨"", "---\nx\n---"⟩).2.2.2.1
     (((claim9_md_import 0 ⟨"", "---\nx\n---"⟩).2.1 (by decide) (by decide))) [w9File]⟩

end Cowork
